import Mathlib

/-!
Verification of the `semantics_description` pipeline module
(`src/pipelines/generation/semantics_description.py`).

The module is a four-stage linear pipeline: `picked_models` filters a schema
descriptor, `prompt` renders a template, `generate` calls an external LLM
provider, and `post_process` normalizes and parses the reply.  We embed the
Python code shallowly: JSON/Python values become the inductive `JsonValue`,
Python runtime exceptions become the explicit `PyError` carried in `Except`,
and `orjson.loads` is modelled by an executable recursive-descent JSON parser
(`orjson_loads`).  JSON numbers are kept as their lexeme string (no claim
depends on numeric semantics).  String operations (`str.replace`,
`str.split`, `str.join`, `str.strip`) are embedded at the character-list
level with Python's whitespace set.
-/

namespace SemanticsDescription

/-- Values manipulated by the pipeline: the results of `orjson.loads` and the
Python dict/list/str literals the module builds.  Objects are association
lists in insertion order; a JSON document with duplicate keys resolves, as in
Python, to the last value (see `lookupLast`). -/
inductive JsonValue where
  | null : JsonValue
  | bool (b : Bool) : JsonValue
  | num (lexeme : String) : JsonValue
  | str (s : String) : JsonValue
  | arr (elems : List JsonValue) : JsonValue
  | obj (fields : List (String × JsonValue)) : JsonValue
deriving Repr, Inhabited

mutual

/-- Decidable equality of `JsonValue`, written by hand because the automatic
derivation does not handle the nested occurrence under `List`. -/
def decEqVal : (a b : JsonValue) → Decidable (a = b)
  | .null, .null => isTrue rfl
  | .bool a, .bool b =>
    match decEq a b with
    | isTrue h => isTrue (h ▸ rfl)
    | isFalse h => isFalse (fun he => h (JsonValue.bool.inj he))
  | .num a, .num b =>
    match decEq a b with
    | isTrue h => isTrue (h ▸ rfl)
    | isFalse h => isFalse (fun he => h (JsonValue.num.inj he))
  | .str a, .str b =>
    match decEq a b with
    | isTrue h => isTrue (h ▸ rfl)
    | isFalse h => isFalse (fun he => h (JsonValue.str.inj he))
  | .arr xs, .arr ys =>
    match decEqArr xs ys with
    | isTrue h => isTrue (h ▸ rfl)
    | isFalse h => isFalse (fun he => h (JsonValue.arr.inj he))
  | .obj xs, .obj ys =>
    match decEqObj xs ys with
    | isTrue h => isTrue (h ▸ rfl)
    | isFalse h => isFalse (fun he => h (JsonValue.obj.inj he))
  | .null, .bool _ | .null, .num _ | .null, .str _ | .null, .arr _ | .null, .obj _
  | .bool _, .null | .bool _, .num _ | .bool _, .str _ | .bool _, .arr _ | .bool _, .obj _
  | .num _, .null | .num _, .bool _ | .num _, .str _ | .num _, .arr _ | .num _, .obj _
  | .str _, .null | .str _, .bool _ | .str _, .num _ | .str _, .arr _ | .str _, .obj _
  | .arr _, .null | .arr _, .bool _ | .arr _, .num _ | .arr _, .str _ | .arr _, .obj _
  | .obj _, .null | .obj _, .bool _ | .obj _, .num _ | .obj _, .str _ | .obj _, .arr _ =>
    isFalse (fun he => nomatch he)

/-- Decidable equality of lists of `JsonValue` (array elements). -/
def decEqArr : (a b : List JsonValue) → Decidable (a = b)
  | [], [] => isTrue rfl
  | [], _ :: _ => isFalse (fun he => nomatch he)
  | _ :: _, [] => isFalse (fun he => nomatch he)
  | x :: xs, y :: ys =>
    match decEqVal x y with
    | isTrue h1 =>
      match decEqArr xs ys with
      | isTrue h2 => isTrue (h1 ▸ h2 ▸ rfl)
      | isFalse h2 => isFalse (fun he => h2 (List.cons.inj he).2)
    | isFalse h1 => isFalse (fun he => h1 (List.cons.inj he).1)

/-- Decidable equality of association lists (object fields). -/
def decEqObj : (a b : List (String × JsonValue)) → Decidable (a = b)
  | [], [] => isTrue rfl
  | [], _ :: _ => isFalse (fun he => nomatch he)
  | _ :: _, [] => isFalse (fun he => nomatch he)
  | (k1, v1) :: xs, (k2, v2) :: ys =>
    match decEq k1 k2 with
    | isTrue hk =>
      match decEqVal v1 v2 with
      | isTrue hv =>
        match decEqObj xs ys with
        | isTrue ht => isTrue (hk ▸ hv ▸ ht ▸ rfl)
        | isFalse ht => isFalse (fun he => ht (List.cons.inj he).2)
      | isFalse hv =>
        isFalse (fun he => hv (congrArg Prod.snd (List.cons.inj he).1))
    | isFalse hk =>
      isFalse (fun he => hk (congrArg Prod.fst (List.cons.inj he).1))

end

instance : DecidableEq JsonValue := decEqVal

/-- Python runtime exceptions that the module's code can raise. -/
inductive PyError where
  | keyError (key : String) : PyError
  | typeError (msg : String) : PyError
  | indexError (msg : String) : PyError
deriving DecidableEq, Repr

/-- Python dict lookup on an association list: with duplicate keys the last
binding wins, matching how a dict built from a JSON document resolves
duplicates. -/
def lookupLast (kvs : List (String × JsonValue)) (k : String) : Option JsonValue :=
  match kvs with
  | [] => none
  | (k', v) :: rest =>
    match lookupLast rest k with
    | some w => some w
    | none => if k' = k then some v else none

/-- Python whitespace characters (the ASCII ones recognized by `str.split`,
`str.strip` and JSON): space, tab, newline, carriage return, vertical tab,
form feed. -/
def isPyWs (c : Char) : Bool :=
  c = ' ' || c = '\t' || c = '\n' || c = '\r' || c = '\x0b' || c = '\x0c'

/-- Character-level embedding of `text.replace("\n", " ")`: the pattern is a
single character, so the replacement is a character map. -/
def nlToSpace (c : Char) : Char :=
  if c = '\n' then ' ' else c

/-- Whether a character list starts with a word character (used to decide if
a preceding word character extends the first split piece). -/
def headIsWord : List Char → Bool
  | [] => false
  | c :: _ => !isPyWs c

/-- Prepend a word character to the split of the remainder: extend the first
piece when the remainder starts inside a word, otherwise open a new piece. -/
def joinFirst (c : Char) (cs : List Char) (ws : List (List Char)) : List (List Char) :=
  if headIsWord cs then
    match ws with
    | [] => [[c]]
    | w :: rest => (c :: w) :: rest
  else [c] :: ws

/-- Embedding of Python `text.split()` (no separator argument): splits on
maximal runs of whitespace and discards empty pieces. -/
def wordsOf : List Char → List (List Char)
  | [] => []
  | c :: cs =>
    if isPyWs c then wordsOf cs
    else joinFirst c cs (wordsOf cs)

/-- Embedding of Python `" ".join(pieces)`. -/
def joinWords : List (List Char) → List Char
  | [] => []
  | [w] => w
  | w :: w2 :: ws => w ++ ' ' :: joinWords (w2 :: ws)

/-- Embedding of the whitespace-normalization prefix of `normalize` in
`post_process`: `text = text.replace("\n", " "); text = " ".join(text.split())`. -/
def normalizeWs (text : String) : String :=
  String.mk (joinWords (wordsOf (text.data.map nlToSpace)))

/-- Embedding of Python `text.strip()`. -/
def pyStrip (s : String) : String :=
  String.mk (((s.data.dropWhile isPyWs).reverse.dropWhile isPyWs).reverse)

/-- Model of `orjson.JSONDecodeError` messages: the parser reports a plain
string. -/
abbrev ParseError := String

/-- Skip JSON whitespace. -/
def skipWs : List Char → List Char
  | [] => []
  | c :: cs => if isPyWs c then skipWs cs else c :: cs

/-- Hexadecimal digit test for unicode escapes. -/
def isHex (c : Char) : Bool :=
  c.isDigit || ('a' ≤ c && c ≤ 'f') || ('A' ≤ c && c ≤ 'F')

/-- Value of a hexadecimal digit. -/
def hexVal (c : Char) : Nat :=
  if c.isDigit then c.toNat - 48
  else if 'a' ≤ c ∧ c ≤ 'f' then c.toNat - 87
  else if 'A' ≤ c ∧ c ≤ 'F' then c.toNat - 55
  else 0

/-- Parse the remainder of a JSON string literal (the opening quote already
consumed), handling the standard escapes. -/
def parseStringBody : List Char → String → Except ParseError (String × List Char)
  | [], _ => .error "unexpected end of string"
  | c :: cs, acc =>
    if c = '"' then .ok (acc, cs)
    else if c = '\\' then
      match cs with
      | [] => .error "unexpected end of escape"
      | e :: cs2 =>
        if e = '"' then parseStringBody cs2 (acc.push '"')
        else if e = '\\' then parseStringBody cs2 (acc.push '\\')
        else if e = '/' then parseStringBody cs2 (acc.push '/')
        else if e = 'n' then parseStringBody cs2 (acc.push '\n')
        else if e = 't' then parseStringBody cs2 (acc.push '\t')
        else if e = 'r' then parseStringBody cs2 (acc.push '\r')
        else if e = 'b' then parseStringBody cs2 (acc.push '\x08')
        else if e = 'f' then parseStringBody cs2 (acc.push '\x0c')
        else if e = 'u' then
          match cs2 with
          | a :: b :: c3 :: d :: cs3 =>
            match isHex a && isHex b && isHex c3 && isHex d with
            | true =>
              let n := 4096 * hexVal a + 256 * hexVal b + 16 * hexVal c3 + hexVal d
              parseStringBody cs3 (acc.push (Char.ofNat n))
            | false => .error "invalid unicode escape"
          | _ => .error "truncated unicode escape"
        else .error "invalid escape"
    else parseStringBody cs (acc.push c)

/-- Collect the decimal-digit prefix. -/
def takeDigits (cs : List Char) : String × List Char :=
  match cs with
  | [] => ("", [])
  | c :: rest =>
    if c.isDigit then
      let (s, r) := takeDigits rest
      (String.singleton c ++ s, r)
    else ("", cs)

/-- Parse an optional exponent part of a number lexeme. -/
def parseExpPart (lex : String) (cs : List Char) : Except ParseError (JsonValue × List Char) :=
  match cs with
  | 'e' :: r | 'E' :: r =>
    let (esign, r2) :=
      match r with
      | '-' :: rr => ("-", rr)
      | '+' :: rr => ("+", rr)
      | _ => ("", r)
    let (expPart, r3) := takeDigits r2
    if expPart = "" then .error "invalid exponent"
    else .ok (.num (lex ++ "e" ++ esign ++ expPart), r3)
  | _ => .ok (.num lex, cs)

/-- Parse a JSON number lexeme (after an optional leading minus, already in
`sign`).  The lexeme is kept verbatim; no claim depends on numeric value. -/
def parseNumberBody (sign : String) (cs : List Char) : Except ParseError (JsonValue × List Char) :=
  let (intPart, r1) := takeDigits cs
  if intPart = "" then .error "invalid number"
  else
    match r1 with
    | '.' :: r2 =>
      let (fracPart, r3) := takeDigits r2
      if fracPart = "" then .error "invalid fraction"
      else parseExpPart (sign ++ intPart ++ "." ++ fracPart) r3
    | _ => parseExpPart (sign ++ intPart) r1

mutual

/-- Recursive-descent JSON value parser, fuelled for termination (fuel bounds
the nesting and element recursion; `orjson_loads` supplies more fuel than any
input can consume). -/
def parseValue : Nat → List Char → Except ParseError (JsonValue × List Char)
  | 0, _ => .error "out of fuel"
  | Nat.succ fuel, cs =>
    match skipWs cs with
    | [] => .error "unexpected end of input"
    | c :: rest =>
      if c = '"' then
        match parseStringBody rest "" with
        | .ok (s, r) => .ok (.str s, r)
        | .error e => .error e
      else if c = '{' then
        match skipWs rest with
        | '}' :: r => .ok (.obj [], r)
        | r => match parseMembers fuel r with
          | .ok (kvs, r2) => .ok (.obj kvs, r2)
          | .error e => .error e
      else if c = '[' then
        match skipWs rest with
        | ']' :: r => .ok (.arr [], r)
        | r => match parseElems fuel r with
          | .ok (vs, r2) => .ok (.arr vs, r2)
          | .error e => .error e
      else if c = 't' then
        match rest with
        | 'r' :: 'u' :: 'e' :: r => .ok (.bool true, r)
        | _ => .error "invalid literal"
      else if c = 'f' then
        match rest with
        | 'a' :: 'l' :: 's' :: 'e' :: r => .ok (.bool false, r)
        | _ => .error "invalid literal"
      else if c = 'n' then
        match rest with
        | 'u' :: 'l' :: 'l' :: r => .ok (.null, r)
        | _ => .error "invalid literal"
      else if c = '-' then parseNumberBody "-" rest
      else if c.isDigit then parseNumberBody "" (c :: rest)
      else .error "unexpected character"

/-- Parse the members of a JSON object after `{` (first member not yet
consumed, object known non-empty). -/
def parseMembers : Nat → List Char → Except ParseError (List (String × JsonValue) × List Char)
  | 0, _ => .error "out of fuel"
  | Nat.succ fuel, cs =>
    match skipWs cs with
    | '"' :: rest =>
      match parseStringBody rest "" with
      | .error e => .error e
      | .ok (k, r1) =>
        match skipWs r1 with
        | ':' :: r2 =>
          match parseValue fuel r2 with
          | .error e => .error e
          | .ok (v, r3) =>
            match skipWs r3 with
            | ',' :: r4 =>
              match parseMembers fuel r4 with
              | .error e => .error e
              | .ok (kvs, r5) => .ok ((k, v) :: kvs, r5)
            | '}' :: r4 => .ok ([(k, v)], r4)
            | _ => .error "expected comma or closing brace"
        | _ => .error "expected colon"
    | _ => .error "expected string key"

/-- Parse the elements of a JSON array after `[` (first element not yet
consumed, array known non-empty). -/
def parseElems : Nat → List Char → Except ParseError (List JsonValue × List Char)
  | 0, _ => .error "out of fuel"
  | Nat.succ fuel, cs =>
    match parseValue fuel cs with
    | .error e => .error e
    | .ok (v, r1) =>
      match skipWs r1 with
      | ',' :: r2 =>
        match parseElems fuel r2 with
        | .error e => .error e
        | .ok (vs, r3) => .ok (v :: vs, r3)
      | ']' :: r2 => .ok ([v], r2)
      | _ => .error "expected comma or closing bracket"

end

/-- Model of `orjson.loads`: parse one JSON document and require only trailing
whitespace after it. -/
def orjson_loads (s : String) : Except ParseError JsonValue :=
  match parseValue (s.length + 1) s.data with
  | .error e => .error e
  | .ok (v, rest) =>
    match skipWs rest with
    | [] => .ok v
    | _ => .error "trailing data"

/-- Python subscripting `v[key]` with a string key: dict lookup (raising
`KeyError` when absent) and `TypeError` for every non-dict value. -/
def getItemStr (v : JsonValue) (key : String) : Except PyError JsonValue :=
  match v with
  | .obj kvs =>
    match lookupLast kvs key with
    | some w => .ok w
    | none => .error (.keyError key)
  | .arr _ => .error (.typeError "list indices must be integers or slices, not str")
  | .str _ => .error (.typeError "string indices must be integers")
  | _ => .error (.typeError "object is not subscriptable")

/-- Python iteration over a value: lists yield their elements, strings their
one-character substrings, dicts their keys; everything else raises
`TypeError`. -/
def pyIter (v : JsonValue) : Except PyError (List JsonValue) :=
  match v with
  | .arr xs => .ok xs
  | .str s => .ok (s.data.map (fun c => .str (String.singleton c)))
  | .obj kvs => .ok (kvs.map (fun kv => JsonValue.str kv.1))
  | _ => .error (.typeError "object is not iterable")

/-- Python dict values with arbitrary (hashable) keys, in insertion order:
the result type of `post_process`. -/
abbrev PyDict := List (JsonValue × JsonValue)

/-- Only immutable values are hashable dict keys; lists and dicts raise
`TypeError` when used as keys. -/
def isHashable (v : JsonValue) : Bool :=
  match v with
  | .arr _ => false
  | .obj _ => false
  | _ => true

/-- Python dict assignment `d[k] = v`: overwrite in place when the key is
present, append otherwise. -/
def dictInsert (d : PyDict) (k v : JsonValue) : PyDict :=
  if d.any (fun kv => kv.1 = k) then
    d.map (fun kv => if kv.1 = k then (k, v) else kv)
  else d ++ [(k, v)]

/-!  Embedding of the module's pipeline stage functions. -/

/-- Embedding of `extract` inside `picked_models`: builds the dict literal
`{"name": model["name"], "columns": model["columns"],
"properties": model["properties"]}`, evaluating the subscripts in source
order. -/
def extract (model : JsonValue) : Except PyError JsonValue :=
  match getItemStr model "name" with
  | .error e => .error e
  | .ok n =>
    match getItemStr model "columns" with
    | .error e => .error e
    | .ok c =>
      match getItemStr model "properties" with
      | .error e => .error e
      | .ok p => .ok (.obj [("name", n), ("columns", c), ("properties", p)])

/-- Python equality of a value against a string: `==` between a non-`str`
value and a `str` is `False`. -/
def pyEqStr (v : JsonValue) (s : String) : Bool :=
  match v with
  | .str t => t = s
  | _ => false

/-- Python membership `v in selected_models` for a list of strings. -/
def pyInStrList (v : JsonValue) (ss : List String) : Bool :=
  ss.any (pyEqStr v)

/-- The list comprehension in `picked_models`:
`[extract(model) for model in models if model["name"] in selected_models]`,
with Python's evaluation order (filter condition first, then `extract`). -/
def pickLoop : List JsonValue → List String → Except PyError (List JsonValue)
  | [], _ => .ok []
  | m :: ms, sel =>
    match getItemStr m "name" with
    | .error e => .error e
    | .ok n =>
      if pyInStrList n sel then
        match extract m with
        | .error e => .error e
        | .ok r =>
          match pickLoop ms sel with
          | .error e => .error e
          | .ok rs => .ok (r :: rs)
      else pickLoop ms sel

/-- Embedding of the pipeline stage `picked_models(mdl, selected_models)`. -/
def picked_models (mdl : JsonValue) (selected_models : List String) :
    Except PyError (List JsonValue) :=
  match getItemStr mdl "models" with
  | .error e => .error e
  | .ok ms =>
    match pyIter ms with
    | .error e => .error e
    | .ok models => pickLoop models selected_models

/-- Embedding of the inner `normalize` of `post_process`: replace newlines by
spaces, re-join the whitespace-split words with single spaces, then
`orjson.loads(text.strip())`; a decode error is logged and the empty dict is
returned instead. -/
def normalize (text : String) : JsonValue :=
  match orjson_loads (pyStrip (normalizeWs text)) with
  | .ok v => v
  | .error _ => .obj []

/-- The reply envelope returned by `generator.run`: the result of
`generate.get("replies")` is `none` when the key is missing, otherwise the
list of candidate texts. -/
structure Envelope where
  replies : Option (List String)
deriving DecidableEq, Repr

/-- The dict comprehension of `post_process`:
`{model["name"]: model for model in elems}`, folded left over the iterated
elements with Python dict-assignment semantics and `TypeError` on an
unhashable key. -/
def buildResultMap : PyDict → List JsonValue → Except PyError PyDict
  | d, [] => .ok d
  | d, m :: ms =>
    match getItemStr m "name" with
    | .error e => .error e
    | .ok name =>
      if isHashable name then buildResultMap (dictInsert d name m) ms
      else .error (.typeError "unhashable type")

/-- Embedding of the pipeline stage `post_process(generate)`:
`reply = generate.get("replies")[0]` (subscripting `None` raises `TypeError`,
an empty list raises `IndexError`), then `normalized = normalize(reply)`,
then the comprehension over `normalized["models"]`. -/
def post_process (generate : Envelope) : Except PyError PyDict :=
  match generate.replies with
  | none => .error (.typeError "NoneType object is not subscriptable")
  | some [] => .error (.indexError "list index out of range")
  | some (reply :: _) =>
    let normalized := normalize reply
    match getItemStr normalized "models" with
    | .error e => .error e
    | .ok modelsVal =>
      match pyIter modelsVal with
      | .error e => .error e
      | .ok elems => buildResultMap [] elems

/-!  Embedding of the surrounding pipeline (`prompt`, `generate`, and the
orchestration in `SemanticsDescription.run`).  The prompt builder and the
generator are external collaborators, modelled as opaque-behaviour function
fields of `Components`; the generator can fail (a raised provider error,
`GenError`). -/

/-- Errors raised by the external generation provider. -/
abbrev GenError := String

/-- Rendered prompt payloads are string-keyed dicts (the prompt builder
returns `{"prompt": ...}`). -/
abbrev PromptPayload := List (String × String)

/-- Python `dict.get` on a string-valued dict. -/
def lookupLastStr (kvs : PromptPayload) (k : String) : Option String :=
  match kvs with
  | [] => none
  | (k', v) :: rest =>
    match lookupLastStr rest k with
    | some w => some w
    | none => if k' = k then some v else none

/-- The configured components of a `SemanticsDescription` instance:
`prompt_builder.run` and `generator.run`, fixed at construction. -/
structure Components where
  prompt_builder : List JsonValue → String → PromptPayload
  generator : Option String → Except GenError Envelope

/-- Embedding of the pipeline stage `prompt(picked_models, user_prompt,
prompt_builder)`: it only forwards to the builder's `run`. -/
def prompt (picked_models : List JsonValue) (user_prompt : String)
    (prompt_builder : List JsonValue → String → PromptPayload) : PromptPayload :=
  prompt_builder picked_models user_prompt

/-- Embedding of the pipeline stage `generate(prompt, generator)`:
`await generator.run(prompt=prompt.get("prompt"))`, with no exception
handler around the call. -/
def generate (prompt : PromptPayload) (generator : Option String → Except GenError Envelope) :
    Except GenError Envelope :=
  generator (lookupLastStr prompt "prompt")

/-- Errors that can escape a pipeline invocation: a Python runtime error from
one of the module's own stages, or a propagated provider error. -/
inductive PipeError where
  | py (e : PyError) : PipeError
  | gen (e : GenError) : PipeError
deriving DecidableEq, Repr

/-- The linear dataflow executed by `SemanticsDescription.run` for target
`post_process`: `picked_models` → `prompt` → `generate` → `post_process`,
with every stage's exception propagating to the caller. -/
def run_pipeline (c : Components) (user_prompt : String) (selected_models : List String)
    (mdl : JsonValue) : Except PipeError PyDict :=
  match picked_models mdl selected_models with
  | .error e => .error (.py e)
  | .ok pm =>
    match generate (prompt pm user_prompt c.prompt_builder) c.generator with
    | .error g => .error (.gen g)
    | .ok env =>
      match post_process env with
      | .error e => .error (.py e)
      | .ok res => .ok res

/-!  State-passing rendition.  To express frame properties ("no side effects
on the schema", "no shared mutable state across invocations") the shallow
embedding threads the would-be mutable datum explicitly: a computation over a
store `σ` takes the store and returns it (possibly updated) together with a
normal or exceptional result.  Mutation is representable (`writeStore`); the
theorems show the embedded code never uses it. -/

/-- A Python computation over an explicit store `σ`, raising `ε`. -/
def PyM (ε σ α : Type) := σ → Except ε α × σ

/-- Return a pure value, leaving the store untouched. -/
def pyPure {ε σ α : Type} (a : α) : PyM ε σ α := fun s => (.ok a, s)

/-- Sequencing: propagate a raised exception, otherwise continue. -/
def pyBind {ε σ α β : Type} (m : PyM ε σ α) (f : α → PyM ε σ β) : PyM ε σ β := fun s =>
  match m s with
  | (.ok a, s') => f a s'
  | (.error e, s') => (.error e, s')

instance {ε σ : Type} : Monad (PyM ε σ) where
  pure := pyPure
  bind := pyBind

/-- Read the store. -/
def readStore {ε σ : Type} : PyM ε σ σ := fun s => (.ok s, s)

/-- Overwrite the store (available in the embedding, unused by the embedded
code). -/
def writeStore {ε σ : Type} (s : σ) : PyM ε σ Unit := fun _ => (.ok (), s)

/-- Lift an exception-or-value result into the store-passing embedding. -/
def liftExcept {ε σ α : Type} (r : Except ε α) : PyM ε σ α := fun s => (r, s)

/-- Store-passing rendition of `picked_models`: the schema descriptor `mdl`
is the store; every step is a read. -/
def pickLoopSt (sel : List String) : List JsonValue → PyM PyError JsonValue (List JsonValue)
  | [] => pyPure []
  | m :: ms =>
    pyBind (liftExcept (getItemStr m "name")) fun n =>
      if pyInStrList n sel then
        pyBind (liftExcept (extract m)) fun r =>
          pyBind (pickLoopSt sel ms) fun rs =>
            pyPure (r :: rs)
      else pickLoopSt sel ms

/-- Store-passing rendition of the whole `picked_models` stage: read the
schema from the store, subscript `mdl["models"]`, iterate, and run the
comprehension. -/
def picked_models_st (sel : List String) : PyM PyError JsonValue (List JsonValue) :=
  pyBind readStore fun mdl =>
    pyBind (liftExcept (getItemStr mdl "models")) fun ms =>
      pyBind (liftExcept (pyIter ms)) fun models =>
        pickLoopSt sel models

/-- Store-passing rendition of one `SemanticsDescription.run` invocation: the
store is the instance's configured `_components`; the stages read it and
thread it through. -/
def runM (user_prompt : String) (selected_models : List String) (mdl : JsonValue) :
    PyM PipeError Components PyDict :=
  pyBind (liftExcept ((picked_models mdl selected_models).mapError PipeError.py)) fun pm =>
    pyBind readStore fun c =>
      pyBind (liftExcept ((generate (prompt pm user_prompt c.prompt_builder) c.generator).mapError PipeError.gen)) fun env =>
        liftExcept ((post_process env).mapError PipeError.py)

/-!  Spec-side helper functions used to state the theorems. -/

/-- The `"name"` field of an entity record (defaulting to `null`; the
theorems using it carry a well-formedness hypothesis making the default
unreachable). -/
def entityName (m : JsonValue) : JsonValue :=
  ((getItemStr m "name").toOption).getD .null

/-- The `"columns"` field of an entity record. -/
def entityColumns (m : JsonValue) : JsonValue :=
  ((getItemStr m "columns").toOption).getD .null

/-- The `"properties"` field of an entity record. -/
def entityProperties (m : JsonValue) : JsonValue :=
  ((getItemStr m "properties").toOption).getD .null

/-- The simplified entity record `{name, columns, properties}` that
`picked_models` emits for a selected entity. -/
def reduceEntity (m : JsonValue) : JsonValue :=
  .obj [("name", entityName m), ("columns", entityColumns m), ("properties", entityProperties m)]

/-- An entity record is well formed when the three subscripts taken by
`extract` succeed. -/
def entityWF (m : JsonValue) : Bool :=
  ((getItemStr m "name").toOption).isSome && ((getItemStr m "columns").toOption).isSome &&
    ((getItemStr m "properties").toOption).isSome

/-- Whether a parsed JSON document is a mapping that contains a `"models"`
key. -/
def hasModelsKey (v : JsonValue) : Bool :=
  match v with
  | .obj kvs => (lookupLast kvs "models").isSome
  | _ => false

/-- Decidable equality of exception-or-value results, for evaluating the
embedded functions at concrete inputs. -/
instance {ε α : Type} [DecidableEq ε] [DecidableEq α] : DecidableEq (Except ε α) := fun a b =>
  match a, b with
  | .ok x, .ok y =>
    if h : x = y then isTrue (h ▸ rfl) else isFalse (fun he => h (Except.ok.inj he))
  | .error x, .error y =>
    if h : x = y then isTrue (h ▸ rfl) else isFalse (fun he => h (Except.error.inj he))
  | .ok _, .error _ => isFalse (fun he => nomatch he)
  | .error _, .ok _ => isFalse (fun he => nomatch he)

/-!  Theorems for the claims. -/

/-- C4: `post_process` uses only the first candidate reply of the envelope:
for every envelope with a non-empty `replies` list, its output is a function
of `replies[0]` alone, unchanged by adding, removing, or modifying later
candidates. -/
theorem post_process_first_reply_only (r : String) (rest1 rest2 : List String) :
    post_process ⟨some (r :: rest1)⟩ = post_process ⟨some (r :: rest2)⟩ := rfl

/-- C9: when the envelope's `replies` key is missing or its list is empty,
`post_process` raises an exception (the subscript `generate.get("replies")[0]`
is unguarded) instead of returning an empty mapping. -/
theorem post_process_missing_or_empty_replies_raises (e : Envelope)
    (h : e.replies = none ∨ e.replies = some []) :
    ∃ err, post_process e = .error err := by
  obtain ⟨rep⟩ := e
  rcases h with h | h <;> simp only at h <;> subst h
  · exact ⟨.typeError "NoneType object is not subscriptable", rfl⟩
  · exact ⟨.indexError "list index out of range", rfl⟩

/-- Witness for C9 at the concrete envelope with no `replies` key. -/
theorem post_process_missing_or_empty_replies_raises_witness :
    ∃ err, post_process ⟨none⟩ = .error err :=
  post_process_missing_or_empty_replies_raises ⟨none⟩ (Or.inl rfl)

/-- C1 (failing input): on a reply whose first candidate is not valid JSON,
`normalize` returns the empty dict, and `post_process` then raises
`KeyError: 'models'` on `normalized["models"]` — an exception escapes, the
empty mapping is never returned. -/
theorem post_process_parse_failure_raises :
    post_process ⟨some ["not json"]⟩ = .error (.keyError "models") := by decide

/-- C6: if the external generation call fails, the error propagates uncaught
through `generate` and the pipeline to the caller, unchanged, and no result
mapping is produced for that invocation. -/
theorem generate_error_propagates (c : Components) (user_prompt : String)
    (selected_models : List String) (mdl : JsonValue) (pm : List JsonValue) (g : GenError)
    (hpm : picked_models mdl selected_models = .ok pm)
    (hgen : c.generator (lookupLastStr (prompt pm user_prompt c.prompt_builder) "prompt") =
      .error g) :
    generate (prompt pm user_prompt c.prompt_builder) c.generator = .error g ∧
    run_pipeline c user_prompt selected_models mdl = .error (.gen g) := by
  refine ⟨hgen, ?_⟩
  have hgen' := hgen
  simp only [prompt] at hgen'
  simp only [run_pipeline, generate, prompt, hpm, hgen']

/-- A concrete configured-components value whose generator always fails. -/
def failingComponents : Components :=
  ⟨fun _ _ => [("prompt", "p")], fun _ => .error "provider down"⟩

/-- Witness for C6 at a concrete schema, selection, and failing generator. -/
theorem generate_error_propagates_witness :
    generate (prompt [] "u" failingComponents.prompt_builder) failingComponents.generator =
      .error "provider down" ∧
    run_pipeline failingComponents "u" [] (.obj [("models", .arr [])]) =
      .error (.gen "provider down") :=
  generate_error_propagates failingComponents "u" [] (.obj [("models", .arr [])]) []
    "provider down" rfl rfl

/-- The store-passing comprehension threads the schema store through
unchanged and computes exactly `pickLoop`. -/
theorem pickLoopSt_spec (sel : List String) (ms : List JsonValue) (s : JsonValue) :
    pickLoopSt sel ms s = (pickLoop ms sel, s) := by
  induction ms generalizing s with
  | nil => rfl
  | cons m ms ih =>
    rcases h1 : getItemStr m "name" with e | n
    · simp [pickLoopSt, pickLoop, pyBind, liftExcept, pyPure, h1]
    · cases h2 : pyInStrList n sel
      · simp [pickLoopSt, pickLoop, pyBind, liftExcept, pyPure, h1, h2, ih]
      · rcases h3 : extract m with e | r
        · simp [pickLoopSt, pickLoop, pyBind, liftExcept, pyPure, h1, h2, h3]
        · rcases h4 : pickLoop ms sel with e | rs <;>
            simp [pickLoopSt, pickLoop, pyBind, liftExcept, pyPure, h1, h2, h3, h4, ih]

/-- Helper for C8: the store-passing `picked_models` leaves the schema store
untouched and returns the pure stage result. -/
theorem picked_models_st_spec (sel : List String) (mdl : JsonValue) :
    picked_models_st sel mdl = (picked_models mdl sel, mdl) := by
  rcases h1 : getItemStr mdl "models" with e | ms
  · simp [picked_models_st, picked_models, pyBind, liftExcept, readStore, h1]
  · rcases h2 : pyIter ms with e | models
    · simp [picked_models_st, picked_models, pyBind, liftExcept, readStore, h1, h2]
    · simp [picked_models_st, picked_models, pyBind, liftExcept, readStore, h1, h2,
        pickLoopSt_spec]

/-- C8: `picked_models` has no side effects: with the schema descriptor as an
explicit store, the call leaves it unchanged (its `"models"` list and every
entity in it included) while computing its output. -/
theorem picked_models_no_side_effects (mdl : JsonValue) (sel : List String) :
    (picked_models_st sel mdl).2 = mdl ∧
    (picked_models_st sel mdl).1 = picked_models mdl sel := by
  rw [picked_models_st_spec]
  exact ⟨rfl, rfl⟩

/-- Helper for C7: one store-passing invocation of the pipeline leaves the
configured components unchanged and returns the pure dataflow result. -/
theorem runM_spec (up : String) (sel : List String) (mdl : JsonValue) (c : Components) :
    runM up sel mdl c = (run_pipeline c up sel mdl, c) := by
  rcases h1 : picked_models mdl sel with e | pm
  · simp [runM, run_pipeline, pyBind, liftExcept, readStore, Except.mapError, h1]
  · rcases h2 : generate (prompt pm up c.prompt_builder) c.generator with g | env
    · simp [runM, run_pipeline, pyBind, liftExcept, readStore, Except.mapError, h1, h2]
    · rcases h3 : post_process env with e | res <;>
        simp [runM, run_pipeline, pyBind, liftExcept, readStore, Except.mapError, h1, h2, h3]

/-- C7: the pipeline's output is determined solely by its own invocation
inputs given the fixed configured components: an invocation does not mutate
the shared instance state, so two successive runs on the same configured
instance each produce the output of their own inputs only. -/
theorem run_no_cross_contamination (c : Components)
    (up1 up2 : String) (sel1 sel2 : List String) (mdl1 mdl2 : JsonValue) :
    (runM up1 sel1 mdl1 c).2 = c ∧
    (runM up2 sel2 mdl2 (runM up1 sel1 mdl1 c).2).2 = c ∧
    (runM up1 sel1 mdl1 c).1 = run_pipeline c up1 sel1 mdl1 ∧
    (runM up2 sel2 mdl2 (runM up1 sel1 mdl1 c).2).1 = run_pipeline c up2 sel2 mdl2 := by
  rw [runM_spec up1 sel1 mdl1 c]
  rw [runM_spec up2 sel2 mdl2 c]
  exact ⟨rfl, rfl, rfl, rfl⟩

/-- Splitting skips a leading whitespace character. -/
theorem wordsOf_cons_ws (c : Char) (rest : List Char) (h : isPyWs c = true) :
    wordsOf (c :: rest) = wordsOf rest := by
  cases rest <;> simp [wordsOf, h]

/-- Every word produced by splitting is non-empty and whitespace-free. -/
theorem wordsOf_words_ok (cs : List Char) :
    ∀ w ∈ wordsOf cs, w ≠ [] ∧ ∀ c ∈ w, isPyWs c = false := by
  induction cs with
  | nil => simp [wordsOf]
  | cons c cs ih =>
    intro w hw
    cases hc : isPyWs c with
    | true =>
      rw [wordsOf_cons_ws c cs hc] at hw
      exact ih w hw
    | false =>
      rw [show wordsOf (c :: cs) = joinFirst c cs (wordsOf cs) by simp [wordsOf, hc]] at hw
      unfold joinFirst at hw
      rcases hhead : headIsWord cs with _ | _ <;> rw [hhead] at hw <;> simp only [ite] at hw
      · rcases List.mem_cons.mp hw with hw | hw
        · subst hw
          exact ⟨by simp, by intro x hx; rcases List.mem_cons.mp hx with hx | hx
                             · subst hx; exact hc
                             · simp at hx⟩
        · exact ih w hw
      · rcases hwords : wordsOf cs with _ | ⟨w0, ws0⟩ <;> rw [hwords] at hw
        · rcases List.mem_cons.mp hw with hw | hw
          · subst hw
            exact ⟨by simp, by intro x hx; rcases List.mem_cons.mp hx with hx | hx
                               · subst hx; exact hc
                               · simp at hx⟩
          · simp at hw
        · rcases List.mem_cons.mp hw with hw | hw
          · subst hw
            have h0 := ih w0 (by rw [hwords]; simp)
            refine ⟨by simp, ?_⟩
            intro x hx
            rcases List.mem_cons.mp hx with hx | hx
            · subst hx; exact hc
            · exact h0.2 x hx
          · exact ih w (by rw [hwords]; simp [hw])

/-- Splitting a single whitespace-free word returns just that word. -/
theorem wordsOf_word (c : Char) (w : List Char)
    (hok : ∀ x ∈ c :: w, isPyWs x = false) :
    wordsOf (c :: w) = [c :: w] := by
  induction w generalizing c with
  | nil => simp [wordsOf, joinFirst, headIsWord, hok c (by simp)]
  | cons c2 w ih =>
    have hc : isPyWs c = false := hok c (by simp)
    have hc2 : isPyWs c2 = false := hok c2 (by simp)
    have hrec := ih c2 (fun x hx => hok x (List.mem_cons_of_mem c hx))
    simp [wordsOf, joinFirst, headIsWord, hc, hc2] at hrec ⊢
    simp [hrec]

/-- Splitting a whitespace-free word followed by a space prepends the word to
the split of the remainder. -/
theorem wordsOf_append_space (c : Char) (w rest : List Char)
    (hok : ∀ x ∈ c :: w, isPyWs x = false) :
    wordsOf ((c :: w) ++ ' ' :: rest) = (c :: w) :: wordsOf rest := by
  induction w generalizing c with
  | nil =>
    have hc : isPyWs c = false := hok c (by simp)
    have hsp : isPyWs ' ' = true := by decide
    simp [wordsOf, joinFirst, headIsWord, hc, hsp, wordsOf_cons_ws ' ' rest hsp]
  | cons c2 w ih =>
    have hc : isPyWs c = false := hok c (by simp)
    have hc2 : isPyWs c2 = false := hok c2 (by simp)
    have hrec := ih c2 (fun x hx => hok x (List.mem_cons_of_mem c hx))
    simp only [List.cons_append] at hrec ⊢
    rw [show wordsOf (c :: c2 :: (w ++ ' ' :: rest)) =
        joinFirst c (c2 :: (w ++ ' ' :: rest)) (wordsOf (c2 :: (w ++ ' ' :: rest))) by
      simp [wordsOf, hc]]
    rw [hrec]
    simp [joinFirst, headIsWord, hc2]

/-- Splitting the space-joined list of non-empty whitespace-free words
recovers exactly those words. -/
theorem wordsOf_joinWords (W : List (List Char))
    (hW : ∀ w ∈ W, w ≠ [] ∧ ∀ c ∈ w, isPyWs c = false) :
    wordsOf (joinWords W) = W := by
  induction W with
  | nil => simp [joinWords, wordsOf]
  | cons w W ih =>
    obtain ⟨hne, hok⟩ := hW w (by simp)
    cases W with
    | nil =>
      cases w with
      | nil => exact absurd rfl hne
      | cons c w' => simpa [joinWords] using wordsOf_word c w' hok
    | cons w2 W2 =>
      cases w with
      | nil => exact absurd rfl hne
      | cons c w' =>
        have hrest := ih (fun u hu => hW u (List.mem_cons_of_mem _ hu))
        calc wordsOf (joinWords ((c :: w') :: w2 :: W2))
            = wordsOf ((c :: w') ++ ' ' :: joinWords (w2 :: W2)) := by rw [joinWords]
          _ = (c :: w') :: wordsOf (joinWords (w2 :: W2)) := wordsOf_append_space c w' _ hok
          _ = (c :: w') :: w2 :: W2 := by rw [hrest]

/-- Mapping the newline replacement over a newline-free character list is the
identity. -/
theorem map_nlToSpace_id (cs : List Char) (h : ∀ c ∈ cs, c ≠ '\n') :
    cs.map nlToSpace = cs := by
  induction cs with
  | nil => rfl
  | cons c cs ih =>
    have hc : c ≠ '\n' := h c (by simp)
    simp [nlToSpace, hc, ih (fun x hx => h x (List.mem_cons_of_mem c hx))]

/-- The space-joined list of whitespace-free words contains no newline. -/
theorem joinWords_no_nl (W : List (List Char))
    (hW : ∀ w ∈ W, ∀ c ∈ w, isPyWs c = false) :
    ∀ c ∈ joinWords W, c ≠ '\n' := by
  induction W with
  | nil => simp [joinWords]
  | cons w W ih =>
    cases W with
    | nil =>
      intro c hc
      intro he
      subst he
      have := hW w (by simp) '\n' (by simpa [joinWords] using hc)
      simp [isPyWs] at this
    | cons w2 W2 =>
      intro c hc
      rw [joinWords] at hc
      rcases List.mem_append.mp hc with hc | hc
      · intro he
        subst he
        have := hW w (by simp) '\n' hc
        simp [isPyWs] at this
      · rcases List.mem_cons.mp hc with hc | hc
        · subst hc; decide
        · exact ih (fun u hu => hW u (List.mem_cons_of_mem w hu)) c hc

/-- C5: the whitespace-normalization step of `normalize` (replace newlines by
spaces, then collapse whitespace runs to single spaces by split-and-join) is
idempotent: applying it to an already-normalized string returns it
unchanged. -/
theorem normalizeWs_idempotent (s : String) :
    normalizeWs (normalizeWs s) = normalizeWs s := by
  unfold normalizeWs
  congr 1
  have hdata : (String.mk (joinWords (wordsOf (s.data.map nlToSpace)))).data =
      joinWords (wordsOf (s.data.map nlToSpace)) := rfl
  rw [hdata]
  have hsound := wordsOf_words_ok (s.data.map nlToSpace)
  rw [map_nlToSpace_id _ (joinWords_no_nl _ (fun w hw => (hsound w hw).2))]
  rw [wordsOf_joinWords _ hsound]

/-- On well-formed entity records the comprehension of `picked_models`
computes exactly the name-filtered, key-reduced entity list. -/
theorem pickLoop_eq_filter (models : List JsonValue) (sel : List String)
    (hwf : ∀ m ∈ models, entityWF m = true) :
    pickLoop models sel =
      .ok ((models.filter (fun m => pyInStrList (entityName m) sel)).map reduceEntity) := by
  induction models with
  | nil => rfl
  | cons m ms ih =>
    have hm := hwf m (by simp)
    unfold entityWF at hm
    simp only [Bool.and_eq_true, Option.isSome_iff_exists] at hm
    obtain ⟨⟨⟨n, hn0⟩, ⟨cadd, hc0⟩⟩, p, hp0⟩ := hm
    have hn : getItemStr m "name" = .ok n := by
      cases h : getItemStr m "name" <;> rw [h] at hn0 <;> simp [Except.toOption] at hn0
      rw [hn0]
    have hc : getItemStr m "columns" = .ok cadd := by
      cases h : getItemStr m "columns" <;> rw [h] at hc0 <;> simp [Except.toOption] at hc0
      rw [hc0]
    have hp : getItemStr m "properties" = .ok p := by
      cases h : getItemStr m "properties" <;> rw [h] at hp0 <;> simp [Except.toOption] at hp0
      rw [hp0]
    have hname : entityName m = n := by simp [entityName, hn, Except.toOption]
    have hrest := ih (fun m' hm' => hwf m' (List.mem_cons_of_mem m hm'))
    cases hsel : pyInStrList n sel with
    | false =>
      simp only [pickLoop, hn, hsel, List.filter_cons, hname]
      rw [if_neg (by simp [hsel])]
      exact hrest
    | true =>
      have hext : extract m = .ok (reduceEntity m) := by
        simp [extract, hn, hc, hp, reduceEntity, entityName, entityColumns, entityProperties,
          Except.toOption]
      simp only [pickLoop, hn, hsel, if_true, hext, hrest, List.filter_cons, hname]
      simp [List.map_cons]

/-- C2: for every schema descriptor whose `"models"` key holds a list of
well-formed entity records and every selection list, `picked_models` returns
exactly the entities whose `"name"` is in the selection, each reduced to the
keys name, columns, properties, in the schema's original order and no others;
an empty selection yields an empty sequence (and a selected name absent from
the schema is simply never matched, without error). -/
theorem picked_models_selects_exactly (kvs : List (String × JsonValue))
    (models : List JsonValue) (sel : List String)
    (hm : lookupLast kvs "models" = some (.arr models))
    (hwf : ∀ m ∈ models, entityWF m = true) :
    picked_models (.obj kvs) sel =
      .ok ((models.filter (fun m => pyInStrList (entityName m) sel)).map reduceEntity) ∧
    picked_models (.obj kvs) [] = .ok [] := by
  constructor
  · simp only [picked_models, getItemStr, hm, pyIter]
    exact pickLoop_eq_filter models sel hwf
  · simp only [picked_models, getItemStr, hm, pyIter]
    rw [pickLoop_eq_filter models [] hwf]
    simp [pyInStrList]

/-- A concrete two-entity schema used to witness C2. -/
def mdlSample : List (String × JsonValue) :=
  [("models", .arr
    [.obj [("name", .str "orders"), ("columns", .arr [.str "c1"]), ("properties", .obj [])],
     .obj [("name", .str "products"), ("columns", .arr []), ("properties", .obj [])]])]

/-- The entity list of `mdlSample`. -/
def modelsSample : List JsonValue :=
  [.obj [("name", .str "orders"), ("columns", .arr [.str "c1"]), ("properties", .obj [])],
   .obj [("name", .str "products"), ("columns", .arr []), ("properties", .obj [])]]

/-- Witness for C2: a selection holding one present name and one absent name
picks exactly the present entity, reduced; the empty selection picks
nothing. -/
theorem picked_models_selects_exactly_witness :
    picked_models (.obj mdlSample) ["orders", "customers"] =
      .ok ((modelsSample.filter
        (fun m => pyInStrList (entityName m) ["orders", "customers"])).map reduceEntity) ∧
    picked_models (.obj mdlSample) [] = .ok [] :=
  picked_models_selects_exactly mdlSample modelsSample ["orders", "customers"]
    (by decide) (by decide)

/-- Every entry of `dictInsert d k v` is an entry of `d` or the inserted
pair. -/
theorem dictInsert_mem (d : PyDict) (k v : JsonValue) :
    ∀ kv ∈ dictInsert d k v, kv ∈ d ∨ kv = (k, v) := by
  intro kv hkv
  unfold dictInsert at hkv
  split at hkv
  · rw [List.mem_map] at hkv
    obtain ⟨kv0, h0, heq⟩ := hkv
    by_cases hk : kv0.1 = k
    · right; rw [if_pos hk] at heq; exact heq.symm
    · left; rw [if_neg hk] at heq; exact heq ▸ h0
  · rcases List.mem_append.mp hkv with h | h
    · left; exact h
    · right; simpa using h

/-- The inserted pair is always an entry of `dictInsert d k v`. -/
theorem dictInsert_self_mem (d : PyDict) (k v : JsonValue) :
    (k, v) ∈ dictInsert d k v := by
  unfold dictInsert
  split
  · rename_i hany
    rw [List.any_eq_true] at hany
    obtain ⟨kv0, h0, hk0⟩ := hany
    rw [List.mem_map]
    exact ⟨kv0, h0, by simp [of_decide_eq_true hk0]⟩
  · simp

/-- Insertion preserves every key already present. -/
theorem dictInsert_preserves_key (d : PyDict) (k v k0 v0 : JsonValue)
    (h : (k0, v0) ∈ d) :
    ∃ v', (k0, v') ∈ dictInsert d k v := by
  unfold dictInsert
  split
  · by_cases hk : k0 = k
    · subst hk
      exact ⟨v, List.mem_map.mpr ⟨(k0, v0), h, by simp⟩⟩
    · exact ⟨v0, List.mem_map.mpr ⟨(k0, v0), h, by simp [hk]⟩⟩
  · exact ⟨v0, by simp [h]⟩

/-- The dict comprehension of `post_process` succeeds on a list of entities
whose `"name"` subscripts yield strings, every produced entry pairs an entity
with its own name, keys already accumulated are preserved, and every entity's
name ends up among the keys. -/
theorem buildResultMap_spec (models : List JsonValue) :
    ∀ d : PyDict,
    (∀ m ∈ models, ∃ s, getItemStr m "name" = .ok (.str s)) →
    ∃ d', buildResultMap d models = .ok d' ∧
      (∀ kv ∈ d', kv ∈ d ∨ (kv.2 ∈ models ∧ getItemStr kv.2 "name" = .ok kv.1)) ∧
      (∀ k0 v0, (k0, v0) ∈ d → ∃ v', (k0, v') ∈ d') ∧
      (∀ m ∈ models, ∃ k, getItemStr m "name" = .ok k ∧ ∃ v', (k, v') ∈ d') := by
  induction models with
  | nil =>
    intro d _
    exact ⟨d, rfl, fun kv hkv => Or.inl hkv, fun k0 v0 h0 => ⟨v0, h0⟩, by simp⟩
  | cons m ms ih =>
    intro d h
    obtain ⟨s, hs⟩ := h m (by simp)
    obtain ⟨d', hd', hfrom, hpres, hkeys⟩ :=
      ih (dictInsert d (.str s) m) (fun m' hm' => h m' (List.mem_cons_of_mem m hm'))
    refine ⟨d', ?_, ?_, ?_, ?_⟩
    · simp only [buildResultMap, hs, isHashable, if_true]
      exact hd'
    · intro kv hkv
      rcases hfrom kv hkv with hin | hnew
      · rcases dictInsert_mem d (.str s) m kv hin with hold | hself
        · exact Or.inl hold
        · right
          subst hself
          exact ⟨by simp, hs⟩
      · exact Or.inr ⟨List.mem_cons_of_mem m hnew.1, hnew.2⟩
    · intro k0 v0 h0
      obtain ⟨v1, h1⟩ := dictInsert_preserves_key d (.str s) m k0 v0 h0
      exact hpres k0 v1 h1
    · intro m' hm'
      rcases List.mem_cons.mp hm' with hm' | hm'
      · subst hm'
        exact ⟨.str s, hs, hpres (.str s) m' (dictInsert_self_mem d (.str s) m')⟩
      · exact hkeys m' hm'

/-- C3: when the first candidate parses as a JSON object with a `"models"`
list whose elements all carry string `"name"` fields, `post_process` returns
the mapping from each element's name to that element: every result entry
pairs a list element with its own name, and every element's name occurs among
the result keys (so the keys are exactly the parsed entity names). -/
theorem post_process_models_mapping (env : Envelope) (r : String) (rest : List String)
    (kvs : List (String × JsonValue)) (models : List JsonValue)
    (h1 : env.replies = some (r :: rest))
    (h2 : orjson_loads (pyStrip (normalizeWs r)) = .ok (.obj kvs))
    (h3 : lookupLast kvs "models" = some (.arr models))
    (h4 : ∀ m ∈ models, ∃ s, getItemStr m "name" = .ok (.str s)) :
    ∃ d, post_process env = .ok d ∧
      (∀ kv ∈ d, kv.2 ∈ models ∧ getItemStr kv.2 "name" = .ok kv.1) ∧
      (∀ m ∈ models, ∃ k, getItemStr m "name" = .ok k ∧ ∃ v', (k, v') ∈ d) := by
  obtain ⟨d, hd, hfrom, hpres, hkeys⟩ := buildResultMap_spec models [] h4
  refine ⟨d, ?_, ?_, hkeys⟩
  · obtain ⟨rep⟩ := env
    simp only at h1
    subst h1
    simp only [post_process, normalize, h2, getItemStr, h3, pyIter]
    exact hd
  · intro kv hkv
    rcases hfrom kv hkv with h | h
    · simp at h
    · exact h

/-- The reply text of the claim's concrete example. -/
def replyExample : String :=
  "\x7b\"models\":[\x7b\"name\":\"orders\",\"properties\":\x7b\"description\":\"d1\"\x7d\x7d]\x7d"

/-- The single parsed entity of `replyExample`. -/
def ordersEntity : JsonValue :=
  .obj [("name", .str "orders"), ("properties", .obj [("description", .str "d1")])]

/-- Witness for C3 at the claim's concrete example, together with the exact
output value: the mapping `{"orders": {"name": "orders", "properties":
{"description": "d1"}}}`. -/
theorem post_process_models_mapping_witness :
    (∃ d, post_process ⟨some [replyExample]⟩ = .ok d ∧
      (∀ kv ∈ d, kv.2 ∈ [ordersEntity] ∧ getItemStr kv.2 "name" = .ok kv.1) ∧
      (∀ m ∈ [ordersEntity], ∃ k, getItemStr m "name" = .ok k ∧ ∃ v', (k, v') ∈ d)) ∧
    post_process ⟨some [replyExample]⟩ = .ok [(.str "orders", ordersEntity)] :=
  ⟨post_process_models_mapping ⟨some [replyExample]⟩ replyExample []
      [("models", .arr [ordersEntity])] [ordersEntity] rfl (by decide) (by decide)
      (fun m hm => by
        rw [List.mem_singleton] at hm
        subst hm
        exact ⟨"orders", by decide⟩),
    by decide⟩

/-- C10: when the first candidate parses as valid JSON that is not a mapping
containing a `"models"` key — including the top-level array format the
module's own system prompt requests — `post_process` raises an exception
(`KeyError` or `TypeError`) rather than returning an empty mapping. -/
theorem post_process_no_models_key_raises (env : Envelope) (r : String) (rest : List String)
    (v : JsonValue)
    (h1 : env.replies = some (r :: rest))
    (h2 : orjson_loads (pyStrip (normalizeWs r)) = .ok v)
    (h3 : hasModelsKey v = false) :
    ∃ err, post_process env = .error err := by
  obtain ⟨rep⟩ := env
  simp only at h1
  subst h1
  simp only [post_process, normalize, h2]
  cases v with
  | obj kvs =>
    simp only [hasModelsKey] at h3
    cases hl : lookupLast kvs "models" with
    | some w => rw [hl] at h3; simp at h3
    | none => exact ⟨.keyError "models", by simp [getItemStr, hl]⟩
  | null => exact ⟨_, rfl⟩
  | bool b => exact ⟨_, rfl⟩
  | num l => exact ⟨_, rfl⟩
  | str s => exact ⟨_, rfl⟩
  | arr xs => exact ⟨_, rfl⟩

/-- Witness for C10: a reply in the top-level array format the system prompt
requests makes `post_process` raise. -/
theorem post_process_no_models_key_raises_witness :
    ∃ err, post_process ⟨some ["[\x7b\"name\": \"model\"\x7d]"]⟩ = .error err :=
  post_process_no_models_key_raises ⟨some ["[\x7b\"name\": \"model\"\x7d]"]⟩
    "[\x7b\"name\": \"model\"\x7d]" []
    (.arr [.obj [("name", .str "model")]]) rfl (by decide) (by decide)

end SemanticsDescription
